import Mathlib

/-!
Verification of the annotation-script core of the omero-scripts repository
(KeyVal_from_csv.py, KeyVals_to_Tag.py): tag registry, hierarchy walker,
CSV ingestion, target resolver and annotation writer, shallowly embedded
as executable Lean functions, with theorems settling the frozen claims.

Python dictionaries are embedded as association lists in insertion order;
Python sets as lists with insert-if-absent (CPython iteration is
insertion-ordered for dicts and deterministic for the uses made here).
-/

/-! ## Generic dictionary and set helpers (Python dict/set semantics) -/

/-- Lookup in an association list (Python `d[k]` / `k in d`), first binding wins.
In a Python dict keys are unique, so the first binding is the binding. -/
def alookup {κ β : Type} [BEq κ] (k : κ) : List (κ × β) → Option β
  | [] => none
  | p :: rest => if p.1 == k then some p.2 else alookup k rest

/-- Python `d[k] = v`: overwrite the existing binding in place, else append. -/
def dset {κ β : Type} [BEq κ] (k : κ) (v : β) : List (κ × β) → List (κ × β)
  | [] => [(k, v)]
  | p :: rest => if p.1 == k then (k, v) :: rest else p :: dset k v rest

/-- Python `defaultdict(list); d[k].append(x)`: append `x` to the list bound to
`k`, creating the binding at the end when `k` is new. -/
def dappend {κ β : Type} [BEq κ] (k : κ) (x : β) :
    List (κ × List β) → List (κ × List β)
  | [] => [(k, [x])]
  | p :: rest => if p.1 == k then (p.1, p.2 ++ [x]) :: rest else p :: dappend k x rest

/-- Python `defaultdict(lambda: defaultdict(list)); d[k1][k2].append(x)`. -/
def dappend2 {β : Type} (k1 k2 : String) (x : β) :
    List (String × List (String × List β)) → List (String × List (String × List β))
  | [] => [(k1, [(k2, [x])])]
  | p :: rest =>
    if p.1 == k1 then (p.1, dappend k2 x p.2) :: rest else p :: dappend2 k1 k2 x rest

/-- Python `set.add`: insert if absent (insertion-ordered model of a set). -/
def setInsert {α : Type} [BEq α] (x : α) (s : List α) : List α :=
  if s.contains x then s else s ++ [x]

/-- Python `str.lower()` (character-wise; the scripts compare ASCII header
words and the "namespace" marker). -/
def pyLower (s : String) : String := String.mk (s.toList.map Char.toLower)

/-- Python `str.upper()`. -/
def pyUpper (s : String) : String := String.mk (s.toList.map Char.toUpper)

/-- Python `str.strip()`. -/
def pyStrip (s : String) : String :=
  String.mk (((s.toList.dropWhile Char.isWhitespace).reverse.dropWhile
    Char.isWhitespace).reverse)

/-- Python `str.split(sep)` on character lists, for a non-empty separator
(the scripts never pass an empty one: the default is ","). The `fuel`
argument only makes the recursion structural; with `fuel = cs.length` the
zero-fuel branch is unreachable because a separator match consumes at
least one character. -/
def pySplitList (sep : List Char) : Nat → List Char → List (List Char)
  | _, [] => [[]]
  | 0, cs => [cs]
  | fuel + 1, c :: cs =>
    if sep ≠ [] ∧ sep.isPrefixOf (c :: cs) then
      [] :: pySplitList sep fuel ((c :: cs).drop sep.length)
    else
      match pySplitList sep fuel cs with
      | [] => [[c]]
      | g :: gs => (c :: g) :: gs

/-- Python `str.split(sep)`. -/
def pySplit (s sep : String) : List String :=
  (pySplitList sep.toList s.toList.length s.toList).map String.mk

/-- The numeric value of a digit string. -/
def digitsVal (ds : List Char) : Int :=
  Int.ofNat (ds.foldl (fun n c => 10 * n + (c.toNat - Char.toNat '0')) 0)

/-- Python `int(s)` where it cannot fail: the digit-only strings produced
by the `(\\d+)` regex group. -/
def pyInt (s : String) : Int := digitsVal s.toList

/-- Python `int(s)` with its `ValueError`: an optional sign followed by
digits (the whitespace tolerance of `int` is unused by the scripts). -/
def pyIntOpt (s : String) : Option Int :=
  match s.toList with
  | '-' :: ds => if ds ≠ [] && ds.all Char.isDigit then some (-(digitsVal ds)) else none
  | ds => if ds ≠ [] && ds.all Char.isDigit then some (digitsVal ds) else none

/-! ## Tag registry (get_tag_dict, KeyVal_from_csv.py:408-468 and
KeyVals_to_Tag.py:222-282 — the two copies are identical) -/

/-- A Python dict key: OMERO tag ids are `int`s, but `preprocess_tag_rows`
indexes `tagid_d` with the *string* regex group, so the key type of the
embedded dict must distinguish the two, as Python does. -/
inductive PyKey where
  | i : Int → PyKey
  | s : String → PyKey
deriving DecidableEq, Repr

instance : BEq PyKey := ⟨fun a b => decide (a = b)⟩

/-- A TagAnnotation as seen by the scripts: `tag.id`, `tag.getValue()`,
whether `tag.getNs() == NSINSIGHTTAGSET`, and `tag.getOwner().id`. -/
structure TagObj where
  tid : Int
  value : String
  ns_tagset : Bool
  owner : Int
deriving DecidableEq, Repr

/-- One AnnotationAnnotationLink row as returned by
`conn.getAnnotationLinks("TagAnnotation", parent_ids=[...])`:
`lk.child.textValue.val`, `lk.child.id.val`, `lk.child.getDetails().owner.id.val`. -/
structure TagLink where
  parent : Int
  childId : Int
  childValue : String
  childOwner : Int
deriving DecidableEq, Repr

/-- The tag/tagset objects visible to the run: `conn.getObjects("TagAnnotation")`
in store order, plus all annotation-annotation links. -/
structure TagStore where
  tags : List TagObj
  links : List TagLink
deriving Repr

def boolInt (b : Bool) : Int := if b then 1 else 0

/-- Accumulator of the single scan pass of `get_tag_dict`. -/
structure RegAcc where
  tagid_d : List (PyKey × TagObj)
  max_id : Int
  tag_raw : List (String × List (Int × Int))
  tagset_raw : List (String × List (Int × Int))
  tagtree_raw : List (String × List (String × List (Int × Int)))
deriving Repr

/-- The `for lk in conn.getAnnotationLinks(...)` loop of `get_tag_dict`:
record every member of the tagset named `tagval` in the tag tree. -/
def tagtree_scan (uid : Int) (tagval : String) (lks : List TagLink)
    (acc : RegAcc) : RegAcc :=
  lks.foldl (fun a lk =>
    let t2 := dappend2 tagval lk.childValue
      (boolInt (lk.childOwner == uid), lk.childId) a.tagtree_raw
    { a with tagtree_raw := t2 }) acc

/-- Body of `for tag in conn.getObjects("TagAnnotation")` in `get_tag_dict`. -/
def tag_scan_step (uid : Int) (use_personal_tags : Bool) (links : List TagLink)
    (acc : RegAcc) (tag : TagObj) : RegAcc :=
  let is_owner : Bool := tag.owner == uid
  if use_personal_tags && !is_owner then acc
  else
    let acc := { acc with tagid_d := dset (PyKey.i tag.tid) tag acc.tagid_d,
                          max_id := max acc.max_id tag.tid }
    if tag.ns_tagset then
      let acc := { acc with
        tagset_raw := dappend tag.value (boolInt is_owner, tag.tid) acc.tagset_raw }
      tagtree_scan uid tag.value (links.filter (fun lk => lk.parent == tag.tid)) acc
    else { acc with tag_raw := dappend tag.value (boolInt is_owner, tag.tid) acc.tag_raw }

/-- Models `v.sort(key=key)` followed by `v[0]`: Python's sort is stable and
ascending, so `v[0]` is the leftmost element with minimal key. -/
def sortPickMin (key : Int × Int → Int) : List (Int × Int) → Option (Int × Int)
  | [] => none
  | x :: xs => some (xs.foldl (fun best y => if key y < key best then y else best) x)

/-- The dedup loops of `get_tag_dict`: for each name keep `v[0][1]` after
sorting by `x[0]*max_id + x[1]`. -/
def dedupMap (max_id : Int) (d : List (String × List (Int × Int))) :
    List (String × Int) :=
  d.filterMap (fun g =>
    (sortPickMin (fun p => p.1 * max_id + p.2) g.2).map (fun p => (g.1, p.2)))

/-- The four lookup tables returned by `get_tag_dict` (after dedup). -/
structure TagTables where
  tag_d : List (String × Int)
  tagset_d : List (String × Int)
  tagtree_d : List (String × List (String × Int))
  tagid_d : List (PyKey × TagObj)
deriving DecidableEq, Repr

/-- Embeds `get_tag_dict(conn, use_personal_tags)` with the store and the current
user id (`conn.getUserId()`) made explicit. -/
def get_tag_dict (store : TagStore) (uid : Int) (use_personal_tags : Bool) :
    TagTables :=
  let acc := store.tags.foldl (tag_scan_step uid use_personal_tags store.links)
    ⟨[], -1, [], [], []⟩
  { tag_d := dedupMap acc.max_id acc.tag_raw,
    tagset_d := dedupMap acc.max_id acc.tagset_raw,
    tagtree_d := acc.tagtree_raw.map (fun g => (g.1, dedupMap acc.max_id g.2)),
    tagid_d := acc.tagid_d }

instance {e a : Type} [DecidableEq e] [DecidableEq a] : DecidableEq (Except e a)
  | .ok x, .ok y =>
    if h : x = y then .isTrue (by rw [h]) else .isFalse (by intro hc; cases hc; exact h rfl)
  | .error x, .error y =>
    if h : x = y then .isTrue (by rw [h]) else .isFalse (by intro hc; cases hc; exact h rfl)
  | .ok _, .error _ => .isFalse (by intro hc; cases hc)
  | .error _, .ok _ => .isFalse (by intro hc; cases hc)

/-! ## Tag-reference token processing (preprocess_tag_rows,
KeyVal_from_csv.py:471-572) -/

/-- Helper for `regx_tag`: match `\[(\d+)\]` at the head of `cs`. -/
def bracket_digits (cs : List Char) : Option (String × List Char) :=
  match cs with
  | '[' :: rest =>
    let ds := rest.takeWhile (fun c => c.isDigit)
    (match rest.drop ds.length with
     | ']' :: rest2 => if ds.isEmpty then none else some (String.mk ds, rest2)
     | _ => none)
  | _ => none

/-- Helper for `regx_tag`: match `\[([^[\]]+)\]` at the head of `cs`. -/
def bracket_text (cs : List Char) : Option (String × List Char) :=
  match cs with
  | '[' :: rest =>
    let ds := rest.takeWhile (fun c => c ≠ '[' && c ≠ ']')
    (match rest.drop ds.length with
     | ']' :: rest2 => if ds.isEmpty then none else some (String.mk ds, rest2)
     | _ => none)
  | _ => none

/-- Embeds `re.compile(r"([^\[\]]+)?(?:\[(\d+)\])?(?:\[([^[\]]+)\])?").match(val).groups()`:
an optional bracket-free name, an optional bracketed all-digits id, then an
optional bracketed tagset name. All three parts are optional so the match
itself never fails (`re.match` anchors at the start and ignores a trailing
remainder); the groups are `None` when absent. -/
def regx_tag_groups (val : String) :
    Option String × Option String × Option String :=
  let cs := val.toList
  let nm := cs.takeWhile (fun c => c ≠ '[' && c ≠ ']')
  let rest := cs.drop nm.length
  let tagname := if nm.isEmpty then none else some (String.mk nm)
  match bracket_digits rest with
  | some (d, rest2) =>
    (match bracket_text rest2 with
     | some (t, _) => (tagname, some d, some t)
     | none => (tagname, some d, none))
  | none =>
    (match bracket_text rest with
     | some (t, _) => (tagname, none, some t)
     | none => (tagname, none, none))

/-- The ways one token of a tag cell can make `preprocess_tag_rows` raise:
`idNotPermitted` is the `assert int(tagid) in tagid_d.keys()` failure,
`keyErr` a Python `KeyError` on a dict subscript, `mismatch` the
`assert tag_o.getValue() == tagname` failure, and the two `notExist`
variants the `assert (tag_exist or create_new_tags)` failures. -/
inductive TagRowErr where
  | idNotPermitted (tid : String)
  | keyErr (k : PyKey)
  | mismatch (tagname : Option String) (tid : String)
  | notExist (tagname : String)
  | notExistInSet (tagname tagset : String)
deriving DecidableEq, Repr

/-- Body of `for val in values` in `preprocess_tag_rows`. Inputs are the
four lookup tables, a fresh-id supply for `tag_o.save()` (the server
assigns new ids; `uid` owns what the run creates), and the token. Returns
the updated tables, the next fresh id, and the strings appended to
`tagid_l` (zero or one). Note the source never uses the result of
`val.strip()` (line 493), so no trimming happens here either. -/
def handle_tag_token (uid : Int) (create_new_tags : Bool) (tt : TagTables)
    (fresh : Int) (val : String) :
    Except TagRowErr (TagTables × Int × List String) :=
  match regx_tag_groups val with
  | (tagname, tagidOpt, tagsetOpt) =>
    let has_tagset : Bool := tagsetOpt.isSome && tagsetOpt != some ""
    match tagidOpt with
    | some tagid =>
      -- "If an ID is found, take precedence"
      if tt.tagid_d.any (fun p => p.1 == PyKey.i (pyInt tagid)) then
        -- tag_o = tagid_d[tagid] : subscript with the *string* group
        match alookup (PyKey.s tagid) tt.tagid_d with
        | none => .error (.keyErr (PyKey.s tagid))
        | some tag_o =>
          -- `if tagname is not None or tagname != ""` (tautology in the source)
          if tagname.isSome || tagname != some "" then
            if tagname == some tag_o.value then .ok (tt, fresh, [tagid])
            else .error (.mismatch tagname tagid)
          else .ok (tt, fresh, [tagid])
      else .error (.idNotPermitted tagid)
    | none =>
      match tagname with
      | none => .ok (tt, fresh, [])
      | some nm =>
        if nm = "" then .ok (tt, fresh, [])
        else if !has_tagset then
          let tag_exist := (alookup nm tt.tag_d).isSome
          if !(tag_exist || create_new_tags) then .error (.notExist nm)
          else if !tag_exist then
            -- create a new Tag and record it in the tables
            let tag_o : TagObj := ⟨fresh, nm, false, uid⟩
            let tt := { tt with tagid_d := dset (PyKey.i fresh) tag_o tt.tagid_d,
                                tag_d := dset nm fresh tt.tag_d }
            (match alookup nm tt.tag_d with
             | some i => .ok (tt, fresh + 1, [toString i])
             | none => .error (.keyErr (PyKey.s nm)))
          else
            (match alookup nm tt.tag_d with
             | some i => .ok (tt, fresh, [toString i])
             | none => .error (.keyErr (PyKey.s nm)))
        else
          match tagsetOpt with
          | none => .error (.keyErr (PyKey.s val)) -- unreachable: has_tagset
          | some ts =>
            let tagset_exist := (alookup ts tt.tagset_d).isSome
            let tag_exist := tagset_exist &&
              (alookup nm ((alookup ts tt.tagtree_d).getD [])).isSome
            if !(tag_exist || create_new_tags) then .error (.notExistInSet nm ts)
            else if !tag_exist then
              let tag_o : TagObj := ⟨fresh, nm, false, uid⟩
              let tt := { tt with tagid_d := dset (PyKey.i fresh) tag_o tt.tagid_d,
                                  tag_d := dset nm fresh tt.tag_d }
              let fresh2 := fresh + 1
              let tt :=
                if !tagset_exist then
                  let tagset_o : TagObj := ⟨fresh2, ts, true, uid⟩
                  { tt with tagid_d := dset (PyKey.i fresh2) tagset_o tt.tagid_d,
                            tagset_d := dset ts fresh2 tt.tagset_d }
                else tt
              let fresh3 := if !tagset_exist then fresh2 + 1 else fresh2
              -- tagset_o = tagid_d[tagset_d[tagset]]; the membership link is a
              -- server-side write with no effect on the tables
              (match alookup ts tt.tagset_d with
               | none => .error (.keyErr (PyKey.s ts))
               | some tsid =>
                 match alookup (PyKey.i tsid) tt.tagid_d with
                 | none => .error (.keyErr (PyKey.i tsid))
                 | some _ =>
                   let tree2 := dset ts (dset nm tag_o.tid
                     ((alookup ts tt.tagtree_d).getD [])) tt.tagtree_d
                   .ok ({ tt with tagtree_d := tree2 }, fresh3, [toString tag_o.tid]))
            else
              (match alookup nm ((alookup ts tt.tagtree_d).getD []) with
               | some i => .ok (tt, fresh, [toString i])
               | none => .error (.keyErr (PyKey.s nm)))

/-! ## Hierarchy walker (get_children_recursive and target_iterator,
KeyVal_from_csv.py:39-119 and KeyVals_to_Tag.py:36-119 — identical) -/

/-- The OMERO object classes handled by the walker. -/
inductive OType where
  | Project | Dataset | Screen | Plate | Well | WellSample | Image | PlateAcquisition
deriving DecidableEq, Repr

/-- The `CHILD_OBJECTS` table. `none` models the Python `KeyError` on the two
classes absent from the dict (`Image`, `PlateAcquisition`), which the scripts
never look up on the allowed source/target combinations. -/
def CHILD_OBJECTS : OType → Option OType
  | .Project => some .Dataset
  | .Dataset => some .Image
  | .Screen => some .Plate
  | .Plate => some .Well
  | .Well => some .WellSample
  | _ => none

/-- A container node: its class, `getId()`, the WellSample run reference
`x._obj.plateAcquisition._id._val`, the id of the Image a WellSample owns
(`getImage()`), the ids of `listPlateAcquisitions()` for a Plate, and
`listChildren()`. Fields irrelevant for a class are ignored by the walker. -/
inductive Obj where
  | node (otype : OType) (oid : Int) (runRef : Int) (imageId : Int)
      (runs : List Int) (children : List Obj)

def Obj.otype : Obj → OType | .node t _ _ _ _ _ => t

def Obj.oid : Obj → Int | .node _ i _ _ _ _ => i

def Obj.runRef : Obj → Int | .node _ _ r _ _ _ => r

def Obj.imageId : Obj → Int | .node _ _ _ im _ _ => im

def Obj.runs : Obj → List Int | .node _ _ _ _ rs _ => rs

def Obj.children : Obj → List Obj | .node _ _ _ _ _ cs => cs

/-- Embeds `wellsample.getImage()`: the Image owned by a WellSample. -/
def Obj.getImage (o : Obj) : Obj := .node .Image o.imageId 0 0 [] []

mutual

/-- Embeds `get_children_recursive(source_object, target_type)`. -/
def get_children_recursive : Obj → OType → List Obj
  | .node t i rr im rs cs, target_type =>
    if CHILD_OBJECTS t = some target_type then
      -- Stop condition, we return the source_obj children
      if t ≠ .WellSample then cs
      else [Obj.getImage (.node t i rr im rs cs)]
    else gcr_children cs target_type

/-- The `for child_obj in source_object.listChildren()` extend loop. -/
def gcr_children : List Obj → OType → List Obj
  | [], _ => []
  | c :: cs, target_type =>
    get_children_recursive c target_type ++ gcr_children cs target_type

end

/-- A run ("PlateAcquisition") with id `r`, as produced by
`p.listPlateAcquisitions()` in the walker's Run-target branch. -/
def runObj (r : Int) : Obj := .node .PlateAcquisition r 0 0 [] []

/-- Embeds `target_iterator(conn, source_object, target_type, is_tag)`.
`parent` models `source_object.getParent()` (used only in the
PlateAcquisition-source branch) and `tag_targets` models the collaborator
query `conn.getObjectsByAnnotations` + reload in the `is_tag` branch. -/
def target_iterator (source parent : Obj) (target_type : OType)
    (is_tag : Bool) (tag_targets : List Obj) : List Obj :=
  if target_type = source.otype then [source]
  else if source.otype = .PlateAcquisition then
    -- Check if there is more than one Run, otherwise it's equivalent
    -- to start from a plate (and faster this way)
    let wellsamp_l := get_children_recursive parent .WellSample
    let wellsamp_l :=
      if 1 < parent.runs.length then
        -- Only case where we need to filter on PlateAcquisition
        wellsamp_l.filter (fun x => x.runRef == source.oid)
      else wellsamp_l
    wellsamp_l.map Obj.getImage
  else if target_type = .PlateAcquisition then
    -- No direct children access from a plate
    let plate_l :=
      if source.otype = .Screen then get_children_recursive source .Plate
      else if source.otype = .Plate then [source]
      else []  -- in Python plate_l would be unbound; unreachable by ALLOWED_PARAM
    plate_l.flatMap (fun p => p.runs.map runObj)
  else if is_tag then tag_targets
  else get_children_recursive source target_type

/-! ## CSV ingestion (read_csv, KeyVal_from_csv.py:317-362) -/

/-- The data carried by the row-length assert message
`"CSV rows lenght mismatch: Header has {} items, while line {} has {}"`,
i.e. `error_msg.format(rowlen, i, len(rows[i]))`. -/
structure SchemaErr where
  header_items : Nat
  line : Nat
  line_items : Nat
deriving DecidableEq, Repr

/-- How `read_csv` can fail after the delimiter was resolved: the row-length
assert, or a Python `IndexError` (first row empty / no row after the
namespace row). -/
inductive CsvErr where
  | schema (e : SchemaErr)
  | indexErr
deriving DecidableEq, Repr

/-- Embeds `for i in range(1, len(rows)): assert len(rows[i]) == rowlen, ...` —
`rest` is `rows[1:]` and `i` starts at 1. -/
def row_length_check (rowlen : Nat) : List (List String) → Nat → Except SchemaErr Unit
  | [], _ => .ok ()
  | r :: rest, i =>
    if r.length = rowlen then row_length_check rowlen rest (i + 1)
    else .error ⟨rowlen, i, r.length⟩

/-- Result of `read_csv`: data rows, trimmed header, per-column namespaces. -/
structure CsvOut where
  rows : List (List String)
  header : List String
  namespaces : List String
deriving DecidableEq, Repr

/-- Embeds `read_csv` after the CSV reader produced `rows = r0 :: rest` (the source
subscripts `rows[0]`, so the embedding takes the first physical row
separately). `defaultNs` is `NSCLIENTMAPANNOTATION`. Validates row lengths
against `len(rows[0])`, consumes an optional namespace row whose first cell
is `"namespace"` case-insensitively, and strips header cells. -/
def read_csv (r0 : List String) (rest : List (List String)) (defaultNs : String) :
    Except CsvErr CsvOut :=
  match row_length_check r0.length rest 1 with
  | .error e => .error (.schema e)
  | .ok _ =>
    let firstCell := match r0 with
      | c :: _ => some c
      | [] => none  -- rows[0][0] would raise IndexError
    match firstCell with
    | none => .error .indexErr
    | some c =>
      if pyLower c = "namespace" then
        let nss := (r0.map pyStrip).map (fun ns => if ns = "" then defaultNs else ns)
        (match rest with
         | [] => .error .indexErr  -- rows[0] after rows = rows[1:]
         | h :: rest2 => .ok ⟨rest2, h.map pyStrip, nss⟩)
      else .ok ⟨rest, r0.map pyStrip, []⟩

/-! ## Target resolver (main_loop name/id matching,
KeyVal_from_csv.py:182-251) -/

/-- A target object as the resolver sees it: class, `getId()`, `getName()`
and `getWellPos()`. -/
structure TargetObj where
  otype : OType
  oid : Int
  name : String
  well_pos : String
deriving DecidableEq, Repr

/-- Embeds `get_obj_name(omero_obj)`: the well position upper-cased for Wells,
`getName()` otherwise. -/
def get_obj_name (o : TargetObj) : String :=
  if o.otype = .Well then pyUpper o.well_pos else o.name

/-- The two duplicate-name asserts of the name-keyed mode. -/
inductive NameErr where
  | csv_duplicates
  | duplicate_target (name : String)
deriving DecidableEq, Repr

/-- The `for target_obj in target_obj_l` loop building `target_d` in
name-keyed mode, asserting `name not in target_d.keys()`. -/
def build_target_d (acc : List (String × TargetObj)) :
    List TargetObj → Except NameErr (List (String × TargetObj))
  | [] => .ok acc
  | t :: ts =>
    if (acc.map Prod.fst).contains (get_obj_name t) then
      .error (.duplicate_target (get_obj_name t))
    else build_target_d (acc ++ [(get_obj_name t, t)]) ts

/-- Embeds `row[idx_id]` with the CSV reader's behaviour for validated rows (all
rows have the header's length; an in-range subscript never fails). -/
def row_key (idx : Nat) (row : List String) : String := row.getD idx ""

/-- The name-keyed preparation of `main_loop` (lines 196-213): first the
CSV duplicate pre-scan (`name_list` / `duplicates` / assert), then the
target dictionary build with its per-name assert. Both run before any row
is matched or annotated. -/
def name_mode_prepare (rows : List (List String)) (idx_name : Nat)
    (target_obj_l : List TargetObj) : Except NameErr (List (String × TargetObj)) :=
  let name_list := rows.map (row_key idx_name)
  let duplicates := name_list.filter (fun n => 1 < name_list.count n)
  if duplicates.length > 0 then .error .csv_duplicates
  else build_target_d [] target_obj_l

/-- State of the row-matching loop: rows handed to the annotation step, the
`total_missing_names` counter, and the `missing_names` / `processed_names`
sets of the `file_ann_multiplied` mode. -/
structure MatchAcc where
  matched : List (String × TargetObj)
  missing_count : Nat
  missing_names : List String
  processed_names : List String
deriving DecidableEq, Repr

/-- Body of `for row in rows` (lines 233-251): skip an empty key, look the
key up in `target_d`, record a miss, otherwise hand the row on. -/
def match_row_step (target_d : List (String × TargetObj)) (idx : Nat)
    (file_ann_multiplied : Bool) (acc : MatchAcc) (row : List String) : MatchAcc :=
  let target_id := row_key idx row
  if target_id = "" then acc
  else
    match alookup target_id target_d with
    | some obj =>
      let acc :=
        if file_ann_multiplied then
          { acc with processed_names := setInsert target_id acc.processed_names }
        else acc
      { acc with matched := acc.matched ++ [(target_id, obj)] }
    | none =>
      if file_ann_multiplied then
        { acc with missing_names := setInsert target_id acc.missing_names }
      else { acc with missing_count := acc.missing_count + 1 }

/-- The whole row-matching loop. -/
def match_rows (target_d : List (String × TargetObj)) (idx : Nat)
    (file_ann_multiplied : Bool) (rows : List (List String)) : MatchAcc :=
  rows.foldl (match_row_step target_d idx file_ann_multiplied) ⟨[], 0, [], []⟩

/-- Name-keyed `main_loop` up to row matching: the duplicate checks abort
(no row is ever matched, no annotation written) before matching starts. -/
def main_loop_name_mode (rows : List (List String)) (idx_name : Nat)
    (target_obj_l : List TargetObj) (file_ann_multiplied : Bool) :
    Except NameErr MatchAcc :=
  match name_mode_prepare rows idx_name target_obj_l with
  | .error e => .error e
  | .ok target_d => .ok (match_rows target_d idx_name file_ann_multiplied rows)

/-! ## Annotation writer (annotate_object, KeyVal_from_csv.py:365-405) -/

/-- The mutable view of the target object during `annotate_object`:
`linked` is the list of annotation ids `obj.listAnnotations()` returns (in
link order), `nextId` the next id the server will assign to a saved
MapAnnotation, and `maps` the MapAnnotations created so far
(id, namespace, key-value list). -/
structure AnnObjState where
  linked : List Int
  nextId : Int
  maps : List (Int × String × List (String × String))
deriving DecidableEq, Repr

/-- Embeds `list(OrderedDict.fromkeys(namespaces))`: first-occurrence dedup. -/
def dedupFirst (seen : List String) : List String → List String
  | [] => []
  | x :: xs =>
    if seen.contains x then dedupFirst seen xs
    else x :: dedupFirst (x :: seen) xs

/-- The `for ns, h, r in zip(namespaces, header, row)` body for one
`curr_ns`: collect `kv_list` and `tag_id_l`. -/
def group_items (exclude_empty_value : Bool) (split_on curr_ns : String) :
    List (String × String × String) → List (String × String) × List String
  | [] => ([], [])
  | (ns, h, r) :: rest =>
    let (kv, tg) := group_items exclude_empty_value split_on curr_ns rest
    if ns = curr_ns && (0 < r.length || !exclude_empty_value) then
      if pyLower h = "tag" then
        if r = "" then (kv, tg)
        else if split_on = "" then (kv, pySplit r "," ++ tg)
        else (kv, r :: tg)
      else ((h, r) :: kv, tg)
    else (kv, tg)

/-- The `for tag_id in tag_id_l` loop: `int(tag_id)` (a `ValueError` is an
error), skip ids already in `exist_ids`, otherwise `tagid_d[tag_id]` (a
`KeyError` when absent — `tagid_d` keys are the ids in `tagid_d_ids`),
link, and extend `exist_ids`. -/
def link_tags (tagid_d_ids : List Int) :
    List String → List Int → AnnObjState → Bool → Except Unit (AnnObjState × Bool)
  | [], _, st, updated => .ok (st, updated)
  | s :: rest, exist_ids, st, updated =>
    match pyIntOpt s with
    | none => .error ()
    | some tag_id =>
      if exist_ids.contains tag_id then
        link_tags tagid_d_ids rest exist_ids st updated
      else if tagid_d_ids.contains tag_id then
        link_tags tagid_d_ids rest (exist_ids ++ [tag_id])
          { st with linked := st.linked ++ [tag_id] } true
      else .error ()

/-- One iteration of the `for curr_ns` loop: `updated` starts `False`
(the source resets it at the top of every iteration), a MapAnnotation is
created and linked whenever `kv_list` is non-empty, and tags are linked
against a fresh `exist_ids = [ann.getId() for ann in obj.listAnnotations()]`. -/
def ann_group (tagid_d_ids : List Int) (exclude_empty_value : Bool)
    (split_on : String) (items : List (String × String × String))
    (curr_ns : String) (st : AnnObjState) : Except Unit (AnnObjState × Bool) :=
  let kv_list := (group_items exclude_empty_value split_on curr_ns items).1
  let tag_id_l := (group_items exclude_empty_value split_on curr_ns items).2
  let stp :=
    if 0 < kv_list.length then
      AnnObjState.mk (st.linked ++ [st.nextId]) (st.nextId + 1)
        (st.maps ++ [(st.nextId, curr_ns, kv_list)])
    else st
  let updated := decide (0 < kv_list.length)
  if 0 < tag_id_l.length then link_tags tagid_d_ids tag_id_l stp.linked stp updated
  else .ok (stp, updated)

/-- The `for curr_ns in list(OrderedDict.fromkeys(namespaces))` loop; the
`Bool` carried across iterations is the `updated` variable, overwritten by
each iteration. -/
def ann_groups (tagid_d_ids : List Int) (exclude_empty_value : Bool)
    (split_on : String) (items : List (String × String × String)) :
    List String → AnnObjState → Bool → Except Unit (AnnObjState × Bool)
  | [], st, updated => .ok (st, updated)
  | curr_ns :: rest, st, _ =>
    match ann_group tagid_d_ids exclude_empty_value split_on items curr_ns st with
    | .error e => .error e
    | .ok (st2, updated2) =>
      ann_groups tagid_d_ids exclude_empty_value split_on items rest st2 updated2

/-- Embeds `annotate_object(conn, obj, row, header, namespaces,
exclude_empty_value, tagid_d, split_on)`: returns the final object state
and the returned `updated` flag. -/
def annotate_object (tagid_d_ids : List Int) (row header namespaces : List String)
    (exclude_empty_value : Bool) (split_on : String) (st : AnnObjState) :
    Except Unit (AnnObjState × Bool) :=
  ann_groups tagid_d_ids exclude_empty_value split_on
    (namespaces.zip (header.zip row)) (dedupFirst [] namespaces) st false

/-- The number of non-empty `kv_list` groups for the given arguments: the
number of MapAnnotations one `annotate_object` call creates. -/
def mapAdds (exclude_empty_value : Bool) (split_on : String)
    (items : List (String × String × String)) (nss : List String) : Nat :=
  (nss.filter (fun ns =>
    0 < (group_items exclude_empty_value split_on ns items).1.length)).length

/-! ## Target collection of KeyVals_to_Tag (main_loop, lines 144-168,
get_existing_map_annotations, lines 191-200) -/

/-- One MapAnnotation attached to a target object. -/
structure MapAnnRec where
  ns : String
  kv : List (String × String)
deriving DecidableEq, Repr

/-- A target object with its attached MapAnnotations. -/
structure TObj where
  oid : Int
  anns : List MapAnnRec
deriving DecidableEq, Repr

/-- Embeds `get_existing_map_annotations(obj, namespace_l)`: the set (insertion
order) of stripped key-value pairs of the object's MapAnnotations within
the requested namespaces ("*" selects every namespace). -/
def get_existing_map_annotations (obj : TObj) (namespace_l : List String) :
    List (String × String) :=
  namespace_l.foldl (fun acc ns =>
    ((obj.anns.filter (fun a => ns == "*" || a.ns == ns)).foldl (fun acc2 a =>
      a.kv.foldl (fun acc3 p => setInsert (p.1.trim, p.2.trim) acc3) acc2) acc)) []

/-- The regex include/exclude filtering of `main_loop` (lines 159-164); a
compiled pattern is embedded as its `pattern.search` predicate on keys. -/
def filter_keyvals (kv_l_tmp : List (String × String))
    (pattern_l pattern_excl_l : List (String → Bool)) : List (String × String) :=
  let kv_l := pattern_l.foldl (fun acc pat =>
    (kv_l_tmp.filter (fun p => pat p.1)).foldl (fun a q => setInsert q a) acc) []
  pattern_excl_l.foldl (fun acc pat =>
    let excl := kv_l_tmp.filter (fun q => pat q.1)
    acc.filter (fun p => !excl.contains p)) kv_l

/-- The key-value gathering applied to one target object (lines 155-166):
read its MapAnnotations in the requested namespaces, then apply the
include/exclude key regexes. -/
def kvProc (namespace_l : List String)
    (pattern_l pattern_excl_l : List (String → Bool)) (t : TObj) :
    List (String × String) :=
  filter_keyvals (get_existing_map_annotations t namespace_l)
    pattern_l pattern_excl_l

/-- Body of the target loop: `if target_obj.getId() in target_obj_d.keys():
continue`, else record the object and its gathered key-value pairs. -/
def collect_step (namespace_l : List String)
    (pattern_l pattern_excl_l : List (String → Bool))
    (acc : List (Int × TObj) × List (Int × List (String × String))) (t : TObj) :
    List (Int × TObj) × List (Int × List (String × String)) :=
  if acc.1.any (fun p => p.1 == t.oid) then acc
  else
    (acc.1 ++ [(t.oid, t)],
     acc.2 ++ [(t.oid, kvProc namespace_l pattern_l pattern_excl_l t)])

/-- The double loop `for source_object in source_objects: for target_obj in
target_iterator(...)` of KeyVals_to_Tag's `main_loop`: build `target_obj_d`
and `target_keyval_d`, skipping any object id already present. `sources`
is the per-source list of enumerated targets. -/
def collect_targets (namespace_l : List String)
    (pattern_l pattern_excl_l : List (String → Bool)) (sources : List (List TObj)) :
    List (Int × TObj) × List (Int × List (String × String)) :=
  sources.foldl (fun st targets =>
    targets.foldl (collect_step namespace_l pattern_l pattern_excl_l) st) ([], [])

/-! ## Concrete inputs used by evaluation theorems -/

/-- Two plain tags named "X": id 5 owned by the current user (uid 1),
id 2 owned by user 7. No tagsets, no links. -/
def storeTieBreak : TagStore :=
  { tags := [⟨5, "X", false, 1⟩, ⟨2, "X", false, 7⟩], links := [] }

/-- A tagset "S" (id 10) owned by the current user (uid 1) whose single
member tag "X" (id 2) belongs to user 7. -/
def storeForeignMember : TagStore :=
  { tags := [⟨10, "S", true, 1⟩, ⟨2, "X", false, 7⟩],
    links := [⟨10, 2, "X", 7⟩] }

/-- Registry tables holding exactly one tag: id 5, named "X". -/
def tablesX5 : TagTables :=
  { tag_d := [("X", 5)], tagset_d := [], tagtree_d := [],
    tagid_d := [(PyKey.i 5, ⟨5, "X", false, 1⟩)] }

/-! ## Claim theorems -/

/-- Claim C1 (code_bug evidence): with two tags named "X" — id 5 owned by
the current user, id 2 owned by someone else — `get_tag_dict` resolves
`tag_by_name["X"]` to id 2, not to id 5 as the claim requires: the code
sorts ascending by `is_owner*max_id + id` and keeps `v[0]`, the *lowest*
score, so the non-owned tag with the smaller id wins. -/
theorem get_tag_dict_keeps_lowest_score :
    alookup "X" (get_tag_dict storeTieBreak 1 false).tag_d = some 2 ∧
    alookup "X" (get_tag_dict storeTieBreak 1 false).tag_d ≠ some 5 := by
  exact ⟨by decide, by decide⟩

/-- Claim C2 (code_bug evidence): on header `["A","B"]`, row `["1",""]`,
namespaces `["ns1","ns2"]` with empty values excluded, `annotate_object`
creates and links a MapAnnotation for the "ns1" group (the state gains
annotation id 100) yet returns `updated = false`, because the `updated`
flag is reset at the start of every namespace iteration and the final
"ns2" group writes nothing. -/
theorem annotate_object_flag_reset :
    annotate_object [] ["1", ""] ["A", "B"] ["ns1", "ns2"] true "" ⟨[], 100, []⟩ =
      .ok (⟨[100], 101, [(100, "ns1", [("A", "1")])]⟩, false) := by
  decide

/-- Claim C6 (code_bug evidence): for the token "X[5]" with the registry
holding exactly tag id 5 named "X", the membership assert
`int(tagid) in tagid_d.keys()` passes, but the following subscript
`tagid_d[tagid]` uses the *string* regex group "5" against the int-keyed
dict, so the run dies with a `KeyError` instead of resolving the token to
id 5. -/
theorem handle_tag_token_keyerror :
    handle_tag_token 1 false tablesX5 100 "X[5]" =
      .error (.keyErr (PyKey.s "5")) := by
  decide

/-- Claim C7 (counterexample): a header of length 3 followed by a data row
of length 2 makes `read_csv` fail citing line index 1 — the 0-based
position of the row in the file, the header being row 0 — not "line 2" as
the claim states. -/
theorem read_csv_cites_index_one :
    read_csv ["a", "b", "c"] [["1", "2"]] "NS" = .error (.schema ⟨3, 1, 2⟩) ∧
    read_csv ["a", "b", "c"] [["1", "2"]] "NS" ≠ .error (.schema ⟨3, 2, 2⟩) := by
  exact ⟨by decide, by decide⟩

/-- Claim C9 (counterexample): with `personal_only` set and uid 1, the
member tag id 2 of the owned tagset "S" is recorded under the
`(tagset, name)` pair ("S","X") although no tag with id 2 owned by
user 1 exists in the store — members of an owned tagset are recorded
without any ownership filter. -/
theorem get_tag_dict_personal_foreign_member :
    alookup "X" ((alookup "S"
        (get_tag_dict storeForeignMember 1 true).tagtree_d).getD []) = some 2 ∧
    (storeForeignMember.tags.any (fun t => t.tid == 2 && t.owner == 1)) = false := by
  exact ⟨by decide, by decide⟩

/-! ## C7: first row-length mismatch -/

/-- The length check reports the first offending row with its index and
both lengths, for an arbitrary starting index. -/
theorem row_length_check_first (rowlen : Nat) (bad : List String)
    (good after : List (List String)) (i : Nat)
    (hg : ∀ r ∈ good, r.length = rowlen) (hb : bad.length ≠ rowlen) :
    row_length_check rowlen (good ++ bad :: after) i =
      .error ⟨rowlen, i + good.length, bad.length⟩ := by
  induction good generalizing i with
  | nil =>
    simp [row_length_check, hb]
  | cons r rest ih =>
    have hr : r.length = rowlen := hg r (by simp)
    have h2 := ih (i + 1) (fun q hq => hg q (by simp [hq]))
    simp only [List.cons_append, List.append_eq, row_length_check, hr, if_true,
      List.length_cons]
    rw [h2, show i + 1 + rest.length = i + (rest.length + 1) from by omega]

/-- Claim C7 (amended): every data row must have exactly as many cells as
the first physical row; the first row whose length differs makes
`read_csv` fail with a schema error carrying the offending row's 0-based
index in the file (the header row being row 0) and both lengths — a
header of length 3 followed by a data row of length 2 fails citing row
index 1, "3", "2". -/
theorem read_csv_length_mismatch (r0 bad : List String)
    (good after : List (List String)) (defaultNs : String)
    (hg : ∀ r ∈ good, r.length = r0.length) (hb : bad.length ≠ r0.length) :
    read_csv r0 (good ++ bad :: after) defaultNs =
      .error (.schema ⟨r0.length, good.length + 1, bad.length⟩) := by
  have h := row_length_check_first r0.length bad good after 1 hg hb
  simp only [read_csv, h]
  rw [show 1 + good.length = good.length + 1 from by omega]

/-- Witness for `read_csv_length_mismatch`: one well-formed data row, then
the mismatching one — the error cites row index 2 and lengths 3 and 2. -/
theorem read_csv_length_mismatch_witness :
    read_csv ["a", "b", "c"] [["x", "y", "z"], ["1", "2"]] "NS" =
      .error (.schema ⟨3, 2, 2⟩) := by
  have h := read_csv_length_mismatch ["a", "b", "c"] ["1", "2"]
    [["x", "y", "z"]] [] "NS" (by decide) (by decide)
  simpa using h

/-! ## C4: duplicate names are fatal before any write -/

/-- The `duplicates` set of the CSV pre-scan is non-empty exactly when the
name column has a repeated value. -/
theorem dup_filter_nonempty (l : List String) :
    0 < (l.filter (fun n => 1 < l.count n)).length ↔ ¬ l.Nodup := by
  rw [List.nodup_iff_count_le_one]
  constructor
  · intro h hall
    rcases List.exists_mem_of_length_pos h with ⟨n, hn⟩
    have := List.of_mem_filter hn
    simp only [decide_eq_true_eq] at this
    exact absurd (hall n) (by omega)
  · intro h
    push_neg at h
    rcases h with ⟨n, hn⟩
    have hmem : n ∈ l := List.count_pos_iff.mp (by omega)
    have : n ∈ l.filter (fun n => 1 < l.count n) :=
      List.mem_filter.mpr ⟨hmem, by simp; omega⟩
    exact List.length_pos.mpr (List.ne_nil_of_mem this)

/-- Lemma: `build_target_d` succeeds exactly when the display names of the
remaining targets, together with the keys already in the accumulator, are
pairwise distinct. -/
theorem build_target_d_ok (ts : List TargetObj) (acc : List (String × TargetObj))
    (hacc : (acc.map Prod.fst).Nodup) :
    (∃ d, build_target_d acc ts = .ok d) ↔
      (acc.map Prod.fst ++ ts.map get_obj_name).Nodup := by
  induction ts generalizing acc with
  | nil =>
    simp only [build_target_d, List.map_nil, List.append_nil]
    exact ⟨fun _ => hacc, fun _ => ⟨acc, rfl⟩⟩
  | cons t ts ih =>
    by_cases hc : (acc.map Prod.fst).contains (get_obj_name t)
    · have hmem : get_obj_name t ∈ acc.map Prod.fst := by
        simpa using hc
      simp only [build_target_d, hc, if_true]
      constructor
      · rintro ⟨d, hd⟩; cases hd
      · intro h
        exact absurd h (by
          simp only [List.map_cons, List.nodup_append, List.nodup_cons] at *
          tauto)
    · have hnmem : get_obj_name t ∉ acc.map Prod.fst := by
        simpa using hc
      have hacc2 : ((acc ++ [(get_obj_name t, t)]).map Prod.fst).Nodup := by
        simp only [List.map_append, List.map_cons, List.map_nil]
        simp [List.nodup_append, hacc, hnmem]
      simp only [build_target_d, hc, Bool.false_eq_true, if_false]
      rw [ih (acc ++ [(get_obj_name t, t)]) hacc2]
      constructor
      · intro h
        have : (acc.map Prod.fst ++ [get_obj_name t] ++ ts.map get_obj_name).Nodup := by
          simpa [List.map_append] using h
        simpa [List.append_assoc] using this
      · intro h
        have : (acc.map Prod.fst ++ [get_obj_name t] ++ ts.map get_obj_name).Nodup := by
          simpa [List.append_assoc] using h
        simpa [List.map_append] using this

/-- Claim C4: in name-keyed mode a duplicate display name — among the CSV
name column values (pre-scanned first) or among the enumerated target
objects — aborts the run with an error before any row is matched or any
annotation written; the run proceeds past the checks exactly when both
key lists are duplicate-free. -/
theorem name_mode_duplicates_fatal (rows : List (List String)) (idx_name : Nat)
    (target_obj_l : List TargetObj) (file_ann_multiplied : Bool) :
    (∃ res, main_loop_name_mode rows idx_name target_obj_l file_ann_multiplied = .ok res) ↔
      ((rows.map (row_key idx_name)).Nodup ∧
        (target_obj_l.map get_obj_name).Nodup) := by
  unfold main_loop_name_mode name_mode_prepare
  by_cases hdup :
      0 < ((rows.map (row_key idx_name)).filter
        (fun n => 1 < (rows.map (row_key idx_name)).count n)).length
  · have hnd := (dup_filter_nonempty (rows.map (row_key idx_name))).mp hdup
    simp only [hdup, if_true]
    constructor
    · rintro ⟨res, hres⟩; cases hres
    · rintro ⟨h1, _⟩; exact absurd h1 hnd
  · have hnd : (rows.map (row_key idx_name)).Nodup := by
      by_contra hcon
      exact hdup ((dup_filter_nonempty (rows.map (row_key idx_name))).mpr hcon)
    simp only [hdup, if_false]
    have hb := build_target_d_ok target_obj_l [] (by simp)
    simp only [List.map_nil, List.nil_append] at hb
    constructor
    · rintro ⟨res, hres⟩
      refine ⟨hnd, ?_⟩
      rw [← hb]
      cases hbuild : build_target_d [] target_obj_l with
      | error e => rw [hbuild] at hres; cases hres
      | ok d => exact ⟨d, rfl⟩
    · rintro ⟨_, h2⟩
      rcases hb.mpr h2 with ⟨d, hd⟩
      rw [hd]
      exact ⟨_, rfl⟩

/-! ## C8: row matching skips empty keys and aggregates misses -/

/-- Specification view: the rows that reach the annotation step, keyed. -/
def matched_of (d : List (String × TargetObj)) (idx : Nat)
    (rows : List (List String)) : List (String × TargetObj) :=
  rows.filterMap (fun r =>
    if row_key idx r = "" then none
    else (alookup (row_key idx r) d).map (fun o => (row_key idx r, o)))

/-- Specification view: the non-empty keys that match no target, in row
order (with multiplicity). -/
def missing_keys (d : List (String × TargetObj)) (idx : Nat)
    (rows : List (List String)) : List String :=
  (rows.map (row_key idx)).filter (fun k => !(k == "") && (alookup k d).isNone)

theorem setInsert_mem (x k : String) (s : List String) :
    k ∈ setInsert x s ↔ k = x ∨ k ∈ s := by
  unfold setInsert
  by_cases hc : s.contains x
  · have : x ∈ s := by simpa using hc
    simp only [hc, if_true]
    constructor
    · exact Or.inr
    · rintro (rfl | h)
      · exact this
      · exact h
  · simp only [hc, Bool.false_eq_true, if_false, List.mem_append,
      List.mem_singleton]
    tauto

/-- The row loop from an arbitrary accumulator. -/
theorem match_rows_fold (d : List (String × TargetObj)) (idx : Nat) (fam : Bool)
    (rows : List (List String)) (acc : MatchAcc) :
    (rows.foldl (match_row_step d idx fam) acc).matched =
      acc.matched ++ matched_of d idx rows ∧
    (rows.foldl (match_row_step d idx fam) acc).missing_count =
      acc.missing_count + (if fam then 0 else (missing_keys d idx rows).length) ∧
    (∀ k, k ∈ (rows.foldl (match_row_step d idx fam) acc).missing_names ↔
      k ∈ acc.missing_names ∨ (fam = true ∧ k ∈ missing_keys d idx rows)) := by
  induction rows generalizing acc with
  | nil =>
    simp [matched_of, missing_keys]
  | cons r rest ih =>
    by_cases hk : row_key idx r = ""
    · have hstep : match_row_step d idx fam acc r = acc := by
        simp [match_row_step, hk]
      have hm : matched_of d idx (r :: rest) = matched_of d idx rest := by
        simp [matched_of, List.filterMap_cons, hk]
      have hmk : missing_keys d idx (r :: rest) = missing_keys d idx rest := by
        simp [missing_keys, hk]
      simp only [List.foldl_cons, hstep, hm, hmk]
      exact ih acc
    · cases hlook : alookup (row_key idx r) d with
      | some obj =>
        have hm : matched_of d idx (r :: rest) =
            (row_key idx r, obj) :: matched_of d idx rest := by
          simp [matched_of, List.filterMap_cons, hk, hlook]
        have hmk : missing_keys d idx (r :: rest) = missing_keys d idx rest := by
          simp [missing_keys, hk, hlook]
        have hstep : match_row_step d idx fam acc r =
            { (if fam then
                { acc with processed_names :=
                    setInsert (row_key idx r) acc.processed_names }
              else acc) with
              matched := (if fam then
                { acc with processed_names :=
                    setInsert (row_key idx r) acc.processed_names }
              else acc).matched ++ [(row_key idx r, obj)] } := by
          simp [match_row_step, hk, hlook]
        rcases ih (match_row_step d idx fam acc r) with ⟨h1, h2, h3⟩
        refine ⟨?_, ?_, ?_⟩
        · rw [List.foldl_cons] at *
          rw [h1, hstep, hm]
          cases fam <;> simp
        · rw [List.foldl_cons] at *
          rw [h2, hstep, hmk]
          cases fam <;> simp
        · intro k
          rw [List.foldl_cons] at *
          rw [h3 k, hstep, hmk]
          cases fam <;> simp
      | none =>
        have hm : matched_of d idx (r :: rest) = matched_of d idx rest := by
          simp [matched_of, List.filterMap_cons, hk, hlook]
        have hmk : missing_keys d idx (r :: rest) =
            row_key idx r :: missing_keys d idx rest := by
          simp [missing_keys, hk, hlook]
        have hstep : match_row_step d idx fam acc r =
            (if fam then
              { acc with missing_names :=
                  setInsert (row_key idx r) acc.missing_names }
            else { acc with missing_count := acc.missing_count + 1 }) := by
          simp [match_row_step, hk, hlook]
        rcases ih (match_row_step d idx fam acc r) with ⟨h1, h2, h3⟩
        refine ⟨?_, ?_, ?_⟩
        · rw [List.foldl_cons] at *
          rw [h1, hstep, hm]
          cases fam <;> simp
        · rw [List.foldl_cons] at *
          rw [h2, hstep, hmk]
          cases fam <;> simp
          omega
        · intro k
          rw [List.foldl_cons] at *
          rw [h3 k, hstep, hmk]
          cases fam
          · simp
          · simp only [if_true, List.mem_cons, setInsert_mem]
            tauto

/-- Claim C8: row matching never aborts — it is a total fold over all rows
— and (i) a row whose key cell is empty contributes neither a match nor a
miss, (ii) a non-empty key absent from the target dictionary is recorded
as missing (counted in `total_missing_names`, or collected in the
`missing_names` set in the multiplied-file mode) while every other row is
still processed: the handed-on rows are exactly the non-empty matching
keys and the recorded misses exactly the non-empty non-matching keys. -/
theorem match_rows_spec (d : List (String × TargetObj)) (idx : Nat) (fam : Bool)
    (rows : List (List String)) :
    (match_rows d idx fam rows).matched = matched_of d idx rows ∧
    (match_rows d idx fam rows).missing_count =
      (if fam then 0 else (missing_keys d idx rows).length) ∧
    (∀ k, k ∈ (match_rows d idx fam rows).missing_names ↔
      (fam = true ∧ k ∈ missing_keys d idx rows)) := by
  rcases match_rows_fold d idx fam rows ⟨[], 0, [], []⟩ with ⟨h1, h2, h3⟩
  refine ⟨by simpa [match_rows] using h1, by simpa [match_rows] using h2, ?_⟩
  intro k
  have := h3 k
  simpa [match_rows] using this

/-! ## C10: each target object processed at most once -/

theorem alookup_append {κ β : Type} [BEq κ] (k : κ) (l m : List (κ × β)) :
    alookup k (l ++ m) =
      (match alookup k l with
       | some v => some v
       | none => alookup k m) := by
  induction l with
  | nil => simp [alookup]
  | cons p rest ih =>
    by_cases h : p.1 == k
    · simp [alookup, h]
    · simp [alookup, h, ih]

theorem alookup_isSome_iff {κ β : Type} [BEq κ] [LawfulBEq κ] (k : κ)
    (l : List (κ × β)) : (alookup k l).isSome ↔ k ∈ l.map Prod.fst := by
  induction l with
  | nil => simp [alookup]
  | cons p rest ih =>
    by_cases h : p.1 == k
    · have : p.1 = k := by simpa using h
      simp [alookup, h, this]
    · have : ¬ p.1 = k := by simpa using h
      simp [alookup, h, ih, this]
      tauto

theorem any_key_eq_isSome {β : Type} (k : Int) (l : List (Int × β)) :
    l.any (fun p => p.1 == k) = (alookup k l).isSome := by
  induction l with
  | nil => simp [alookup]
  | cons p rest ih =>
    by_cases h : p.1 == k
    · simp [alookup, h]
    · simp [alookup, h, ih]

/-- Folding each source's targets in turn is folding their concatenation. -/
theorem foldl_foldl_flatten {α β : Type} (f : β → α → β) (sources : List (List α))
    (st : β) :
    sources.foldl (fun s l => l.foldl f s) st = sources.flatten.foldl f st := by
  induction sources generalizing st with
  | nil => rfl
  | cons ts rest ih => simp [List.foldl_append, ih]

/-- The inner collection fold from an arbitrary, consistent accumulator. -/
theorem collect_fold (nsl : List String) (pl pel : List (String → Bool))
    (l : List TObj) (od : List (Int × TObj))
    (kd : List (Int × List (String × String)))
    (hsync : ∀ i, alookup i kd = (alookup i od).map (kvProc nsl pl pel))
    (hnd : (od.map Prod.fst).Nodup) :
    ((l.foldl (collect_step nsl pl pel) (od, kd)).1.map Prod.fst).Nodup ∧
    (∀ i, alookup i (l.foldl (collect_step nsl pl pel) (od, kd)).1 =
      (match alookup i od with
       | some v => some v
       | none => l.find? (fun t => t.oid == i))) ∧
    (∀ i, alookup i (l.foldl (collect_step nsl pl pel) (od, kd)).2 =
      (alookup i (l.foldl (collect_step nsl pl pel) (od, kd)).1).map
        (kvProc nsl pl pel)) := by
  induction l generalizing od kd with
  | nil =>
    refine ⟨hnd, fun i => ?_, fun i => by simpa using hsync i⟩
    simp only [List.foldl_nil, List.find?_nil]
    cases alookup i od <;> simp
  | cons t rest ih =>
    by_cases hskip : od.any (fun p => p.1 == t.oid)
    · have hsome : (alookup t.oid od).isSome := by
        rw [← any_key_eq_isSome]; exact hskip
      have hstep : collect_step nsl pl pel (od, kd) t = (od, kd) := by
        simp [collect_step, hskip]
      rcases ih od kd hsync hnd with ⟨h1, h2, h3⟩
      refine ⟨?_, fun i => ?_, fun i => ?_⟩
      · simpa [hstep] using h1
      · rw [List.foldl_cons, hstep, h2 i]
        by_cases hi : t.oid = i
        · subst hi
          rcases Option.isSome_iff_exists.mp hsome with ⟨v, hv⟩
          simp [hv]
        · have : (t.oid == i) = false := by simpa using hi
          simp [List.find?_cons, this]
      · rw [List.foldl_cons, hstep]
        exact h3 i
    · have hnone : alookup t.oid od = none := by
        rw [any_key_eq_isSome] at hskip
        exact Option.not_isSome_iff_eq_none.mp (by simpa using hskip)
      have hstep : collect_step nsl pl pel (od, kd) t =
          (od ++ [(t.oid, t)], kd ++ [(t.oid, kvProc nsl pl pel t)]) := by
        simp [collect_step, hskip]
      have hndkeys : t.oid ∉ od.map Prod.fst := by
        intro hmem
        have := (alookup_isSome_iff t.oid od).mpr hmem
        simp [hnone] at this
      have hnd2 : ((od ++ [(t.oid, t)]).map Prod.fst).Nodup := by
        simp [List.nodup_append, hnd, hndkeys]
      have hsync2 : ∀ i, alookup i (kd ++ [(t.oid, kvProc nsl pl pel t)]) =
          (alookup i (od ++ [(t.oid, t)])).map (kvProc nsl pl pel) := by
        intro i
        rw [alookup_append, alookup_append, hsync i]
        by_cases hi : t.oid = i
        · subst hi
          cases hcase : alookup t.oid od with
          | none => simp [alookup]
          | some v => simp [hcase] at hnone
        · have hbeq : (t.oid == i) = false := by simpa using hi
          cases alookup i od <;> simp [alookup, hbeq]
      rcases ih (od ++ [(t.oid, t)]) (kd ++ [(t.oid, kvProc nsl pl pel t)])
        hsync2 hnd2 with ⟨h1, h2, h3⟩
      refine ⟨?_, fun i => ?_, fun i => ?_⟩
      · simpa [hstep] using h1
      · rw [List.foldl_cons, hstep, h2 i]
        by_cases hi : t.oid = i
        · subst hi
          rw [hnone, alookup_append, hnone]
          simp [alookup, List.find?_cons]
        · have hbeq : (t.oid == i) = false := by simpa using hi
          rw [alookup_append]
          cases hcase : alookup i od with
          | some v => simp
          | none => simp [alookup, hbeq, List.find?_cons]
      · rw [List.foldl_cons, hstep]
        exact h3 i

/-- Claim C10: in KeyVals_to_Tag's `main_loop` each target object is
processed at most once per run — the collected `target_obj_d` has pairwise
distinct object-id keys, the entry kept for an id is the *first*
enumerated object with that id across all source containers, and the
key-value pairs stored for it are the ones gathered from that first
occurrence. -/
theorem collect_targets_once (nsl : List String) (pl pel : List (String → Bool))
    (sources : List (List TObj)) :
    (((collect_targets nsl pl pel sources).1.map Prod.fst).Nodup) ∧
    (∀ i, alookup i (collect_targets nsl pl pel sources).1 =
      sources.flatten.find? (fun t => t.oid == i)) ∧
    (∀ i, alookup i (collect_targets nsl pl pel sources).2 =
      (sources.flatten.find? (fun t => t.oid == i)).map (kvProc nsl pl pel)) := by
  have hflat : collect_targets nsl pl pel sources =
      sources.flatten.foldl (collect_step nsl pl pel) ([], []) := by
    unfold collect_targets
    exact foldl_foldl_flatten (collect_step nsl pl pel) sources ([], [])
  rcases collect_fold nsl pl pel sources.flatten [] []
    (fun i => by simp [alookup]) (by simp) with ⟨h1, h2, h3⟩
  refine ⟨by rwa [hflat], fun i => ?_, fun i => ?_⟩
  · rw [hflat, h2 i]
    simp [alookup]
  · rw [hflat, h3 i, h2 i]
    simp [alookup]

/-! ## C9: ownership under personal_only -/

/-- Some tag with this id in the store is owned by `uid`. -/
def OwnedId (store : TagStore) (uid i : Int) : Prop :=
  ∃ t, t ∈ store.tags ∧ t.tid = i ∧ t.owner = uid

theorem mem_dset {κ β : Type} [BEq κ] (k : κ) (v : β) (d : List (κ × β))
    (p : κ × β) (hp : p ∈ dset k v d) : p = (k, v) ∨ p ∈ d := by
  induction d with
  | nil => simpa [dset] using hp
  | cons q rest ih =>
    by_cases hq : q.1 == k
    · simp only [dset, hq, if_true, List.mem_cons] at hp
      rcases hp with h | h
      · exact Or.inl h
      · exact Or.inr (List.mem_cons_of_mem _ h)
    · simp only [dset, hq, Bool.false_eq_true, if_false, List.mem_cons] at hp
      rcases hp with h | h
      · exact Or.inr (by simp [h])
      · rcases ih h with h2 | h2
        · exact Or.inl h2
        · exact Or.inr (List.mem_cons_of_mem _ h2)

theorem dappend_pred {κ β : Type} [BEq κ] (P : β → Prop) (k : κ) (x : β)
    (d : List (κ × List β)) (hd : ∀ g ∈ d, ∀ q ∈ g.2, P q) (hx : P x) :
    ∀ g ∈ dappend k x d, ∀ q ∈ g.2, P q := by
  induction d with
  | nil =>
    intro g hg q hq
    simp only [dappend, List.mem_singleton] at hg
    subst hg
    simp only [List.mem_singleton] at hq
    subst hq
    exact hx
  | cons p rest ih =>
    intro g hg q hq
    by_cases hp : p.1 == k
    · simp only [dappend, hp, if_true, List.mem_cons] at hg
      rcases hg with rfl | hg
      · simp only [List.mem_append, List.mem_singleton] at hq
        rcases hq with h | rfl
        · exact hd p (by simp) _ h
        · exact hx
      · exact hd g (List.mem_cons_of_mem _ hg) q hq
    · simp only [dappend, hp, Bool.false_eq_true, if_false, List.mem_cons] at hg
      rcases hg with rfl | hg
      · exact hd g (by simp) q hq
      · exact ih (fun g2 hg2 => hd g2 (List.mem_cons_of_mem _ hg2)) g hg q hq

theorem sortPickMin_mem (key : Int × Int → Int) (l : List (Int × Int))
    (p : Int × Int) (hp : sortPickMin key l = some p) : p ∈ l := by
  cases l with
  | nil => cases hp
  | cons x xs =>
    simp only [sortPickMin, Option.some_inj] at hp
    subst hp
    have haux : ∀ (ys : List (Int × Int)) (z : Int × Int),
        (ys.foldl (fun best y => if key y < key best then y else best) z) ∈ z :: ys := by
      intro ys
      induction ys with
      | nil => simp
      | cons y ys ih =>
        intro z
        simp only [List.foldl_cons]
        by_cases h : key y < key z
        · simp only [h, if_true]
          have := ih y
          simp only [List.mem_cons] at this ⊢
          tauto
        · simp only [h, if_false]
          have := ih z
          simp only [List.mem_cons] at this ⊢
          tauto
    have h := haux xs x
    simpa using h

/-- Members of `dedupMap` pair a group key with the id of one of the
group's recorded entries. -/
theorem mem_dedupMap (m : Int) (d : List (String × List (Int × Int)))
    (p : String × Int) (hp : p ∈ dedupMap m d) :
    ∃ g ∈ d, ∃ q ∈ g.2, q.2 = p.2 := by
  simp only [dedupMap, List.mem_filterMap] at hp
  rcases hp with ⟨g, hg, hsome⟩
  cases hpick : sortPickMin (fun q => q.1 * m + q.2) g.2 with
  | none => rw [hpick] at hsome; cases hsome
  | some q =>
    rw [hpick] at hsome
    have hpq : (g.1, q.2) = p := by simpa using hsome
    exact ⟨g, hg, q, sortPickMin_mem _ _ _ hpick, by rw [← hpq]⟩

/-- A projection untouched by every step of a fold is untouched by the fold. -/
theorem foldl_preserves {α β γ : Type} (f : β → α → β) (g : β → γ)
    (h : ∀ b a, g (f b a) = g b) : ∀ (l : List α) (b : β), g (l.foldl f b) = g b := by
  intro l
  induction l with
  | nil => intro b; rfl
  | cons a rest ih => intro b; rw [List.foldl_cons, ih, h]

@[simp]
theorem tagtree_scan_tagid (uid : Int) (v : String) (lks : List TagLink)
    (acc : RegAcc) : (tagtree_scan uid v lks acc).tagid_d = acc.tagid_d := by
  unfold tagtree_scan
  exact foldl_preserves (fun a lk =>
    let t2 := dappend2 v lk.childValue
      (boolInt (lk.childOwner == uid), lk.childId) a.tagtree_raw
    { a with tagtree_raw := t2 }) RegAcc.tagid_d (fun _ _ => rfl) lks acc

@[simp]
theorem tagtree_scan_tag_raw (uid : Int) (v : String) (lks : List TagLink)
    (acc : RegAcc) : (tagtree_scan uid v lks acc).tag_raw = acc.tag_raw := by
  unfold tagtree_scan
  exact foldl_preserves (fun a lk =>
    let t2 := dappend2 v lk.childValue
      (boolInt (lk.childOwner == uid), lk.childId) a.tagtree_raw
    { a with tagtree_raw := t2 }) RegAcc.tag_raw (fun _ _ => rfl) lks acc

@[simp]
theorem tagtree_scan_tagset_raw (uid : Int) (v : String) (lks : List TagLink)
    (acc : RegAcc) : (tagtree_scan uid v lks acc).tagset_raw = acc.tagset_raw := by
  unfold tagtree_scan
  exact foldl_preserves (fun a lk =>
    let t2 := dappend2 v lk.childValue
      (boolInt (lk.childOwner == uid), lk.childId) a.tagtree_raw
    { a with tagtree_raw := t2 }) RegAcc.tagset_raw (fun _ _ => rfl) lks acc

@[simp]
theorem tagtree_scan_max_id (uid : Int) (v : String) (lks : List TagLink)
    (acc : RegAcc) : (tagtree_scan uid v lks acc).max_id = acc.max_id := by
  unfold tagtree_scan
  exact foldl_preserves (fun a lk =>
    let t2 := dappend2 v lk.childValue
      (boolInt (lk.childOwner == uid), lk.childId) a.tagtree_raw
    { a with tagtree_raw := t2 }) RegAcc.max_id (fun _ _ => rfl) lks acc

/-- The single-pass scan invariant under `use_personal_tags = true`: every
recorded object and every `(ownership, id)` pair in the raw name tables
comes from a tag owned by the current user. -/
theorem tag_scan_inv (store : TagStore) (uid : Int) (l : List TagObj)
    (hl : ∀ t ∈ l, t ∈ store.tags) (acc : RegAcc)
    (h1 : ∀ p ∈ acc.tagid_d, p.2.owner = uid)
    (h2 : ∀ g ∈ acc.tag_raw, ∀ q ∈ g.2, OwnedId store uid q.2)
    (h3 : ∀ g ∈ acc.tagset_raw, ∀ q ∈ g.2, OwnedId store uid q.2) :
    (∀ p ∈ (l.foldl (tag_scan_step uid true store.links) acc).tagid_d,
        p.2.owner = uid) ∧
    (∀ g ∈ (l.foldl (tag_scan_step uid true store.links) acc).tag_raw,
        ∀ q ∈ g.2, OwnedId store uid q.2) ∧
    (∀ g ∈ (l.foldl (tag_scan_step uid true store.links) acc).tagset_raw,
        ∀ q ∈ g.2, OwnedId store uid q.2) := by
  induction l generalizing acc with
  | nil => exact ⟨h1, h2, h3⟩
  | cons t rest ih =>
    rw [List.foldl_cons]
    by_cases how : t.owner = uid
    · have hbeq : (t.owner == uid) = true := by simpa using how
      have htid : ∀ p ∈ dset (PyKey.i t.tid) t acc.tagid_d, p.2.owner = uid := by
        intro p hp
        rcases mem_dset _ _ _ p hp with rfl | hp2
        · exact how
        · exact h1 p hp2
      have hown : OwnedId store uid t.tid := ⟨t, hl t (by simp), rfl, how⟩
      have hl2 : ∀ q ∈ rest, q ∈ store.tags := fun q hq => hl q (by simp [hq])
      by_cases hns : t.ns_tagset
      · have e1 : (tag_scan_step uid true store.links acc t).tagid_d =
            dset (PyKey.i t.tid) t acc.tagid_d := by
          simp [tag_scan_step, hbeq, hns]
        have e2 : (tag_scan_step uid true store.links acc t).tag_raw =
            acc.tag_raw := by
          simp [tag_scan_step, hbeq, hns]
        have e3 : (tag_scan_step uid true store.links acc t).tagset_raw =
            dappend t.value (boolInt (t.owner == uid), t.tid) acc.tagset_raw := by
          simp [tag_scan_step, hbeq, hns]
        refine ih hl2 (tag_scan_step uid true store.links acc t) ?_ ?_ ?_
        · rw [e1]; exact htid
        · rw [e2]; exact h2
        · rw [e3]; exact dappend_pred _ _ _ _ h3 hown
      · have e1 : (tag_scan_step uid true store.links acc t).tagid_d =
            dset (PyKey.i t.tid) t acc.tagid_d := by
          simp [tag_scan_step, hbeq, hns]
        have e2 : (tag_scan_step uid true store.links acc t).tag_raw =
            dappend t.value (boolInt (t.owner == uid), t.tid) acc.tag_raw := by
          simp [tag_scan_step, hbeq, hns]
        have e3 : (tag_scan_step uid true store.links acc t).tagset_raw =
            acc.tagset_raw := by
          simp [tag_scan_step, hbeq, hns]
        refine ih hl2 (tag_scan_step uid true store.links acc t) ?_ ?_ ?_
        · rw [e1]; exact htid
        · rw [e2]; exact dappend_pred _ _ _ _ h2 hown
        · rw [e3]; exact h3
    · have hbeq : (t.owner == uid) = false := by simpa using how
      have hstep : tag_scan_step uid true store.links acc t = acc := by
        simp [tag_scan_step, hbeq]
      rw [hstep]
      exact ih (fun q hq => hl q (by simp [hq])) acc h1 h2 h3

/-- Claim C9 (amended): when the registry is built with `personal_only`,
every object recorded in `object_by_id` and every id kept in `tag_by_name`
and `tagset_by_name` belongs to a tag owned by the current user; member
tags recorded under a `(tagset, name)` pair, however, are taken from the
owned tagset's links without any ownership filter and may belong to other
users. -/
theorem get_tag_dict_personal_only_owned (store : TagStore) (uid : Int) :
    ((get_tag_dict store uid true).tagid_d.all
      (fun p => p.2.owner == uid)) = true ∧
    ((get_tag_dict store uid true).tag_d.all (fun p =>
      store.tags.any (fun t => t.tid == p.2 && t.owner == uid))) = true ∧
    ((get_tag_dict store uid true).tagset_d.all (fun p =>
      store.tags.any (fun t => t.tid == p.2 && t.owner == uid))) = true := by
  rcases tag_scan_inv store uid store.tags (fun t ht => ht) ⟨[], -1, [], [], []⟩
    (by simp) (by simp) (by simp) with ⟨h1, h2, h3⟩
  have hconv : ∀ (i : Int), OwnedId store uid i →
      (store.tags.any (fun t => t.tid == i && t.owner == uid)) = true := by
    rintro i ⟨t, hmem, rfl, how⟩
    rw [List.any_eq_true]
    exact ⟨t, hmem, by simp [how]⟩
  have e1 : (get_tag_dict store uid true).tagid_d =
      (store.tags.foldl (tag_scan_step uid true store.links)
        ⟨[], -1, [], [], []⟩).tagid_d := rfl
  have e2 : (get_tag_dict store uid true).tag_d =
      dedupMap (store.tags.foldl (tag_scan_step uid true store.links)
          ⟨[], -1, [], [], []⟩).max_id
        (store.tags.foldl (tag_scan_step uid true store.links)
          ⟨[], -1, [], [], []⟩).tag_raw := rfl
  have e3 : (get_tag_dict store uid true).tagset_d =
      dedupMap (store.tags.foldl (tag_scan_step uid true store.links)
          ⟨[], -1, [], [], []⟩).max_id
        (store.tags.foldl (tag_scan_step uid true store.links)
          ⟨[], -1, [], [], []⟩).tagset_raw := rfl
  refine ⟨?_, ?_, ?_⟩
  · rw [List.all_eq_true, e1]
    intro p hp
    simpa using h1 p hp
  · rw [List.all_eq_true, e2]
    intro p hp
    rcases mem_dedupMap _ _ p hp with ⟨g, hg, q, hq, hqi⟩
    rw [← hqi]
    exact hconv q.2 (h2 g hg q hq)
  · rw [List.all_eq_true, e3]
    intro p hp
    rcases mem_dedupMap _ _ p hp with ⟨g, hg, q, hq, hqi⟩
    rw [← hqi]
    exact hconv q.2 (h3 g hg q hq)

/-! ## C5: acquisition-run filtering -/

/-- On a well-formed Plate (children are Wells), collecting WellSample
descendants flattens the wells' children. -/
theorem gcr_children_wells (cs : List Obj) (hw : ∀ w ∈ cs, w.otype = OType.Well) :
    gcr_children cs .WellSample = cs.flatMap Obj.children := by
  induction cs with
  | nil => simp [gcr_children]
  | cons w ws ih =>
    have hwt : w.otype = OType.Well := hw w (by simp)
    have hrec : get_children_recursive w .WellSample = w.children := by
      cases w with
      | node t i rr im rs cs2 =>
        simp only [Obj.otype] at hwt
        subst hwt
        simp [get_children_recursive, CHILD_OBJECTS, Obj.children]
    rw [List.flatMap_cons, ← ih (fun q hq => hw q (by simp [hq])), ← hrec]
    simp [gcr_children]

theorem get_children_recursive_plate (p : Obj) (hp : p.otype = OType.Plate)
    (hw : ∀ w ∈ p.children, w.otype = OType.Well) :
    get_children_recursive p .WellSample = p.children.flatMap Obj.children := by
  cases p with
  | node t i rr im rs cs =>
    simp only [Obj.otype] at hp
    subst hp
    simp only [Obj.children] at hw ⊢
    rw [show get_children_recursive (Obj.node OType.Plate i rr im rs cs) .WellSample
        = gcr_children cs .WellSample from by
      simp [get_children_recursive, CHILD_OBJECTS]]
    exact gcr_children_wells cs hw

/-- Claim C5: walking from an AcquisitionRun source to Image collects every
WellSample under the run's parent Plate, filters them by the run-reference
equalling the source's id exactly when the Plate has more than one run
(with zero or one run nothing is filtered), and yields each surviving
WellSample's Image. -/
theorem target_iterator_run_filter (src plate : Obj)
    (hs : src.otype = OType.PlateAcquisition) (hp : plate.otype = OType.Plate)
    (hw : ∀ w ∈ plate.children, w.otype = OType.Well) :
    target_iterator src plate .Image false [] =
      ((if 1 < plate.runs.length
        then (plate.children.flatMap Obj.children).filter
          (fun x => x.runRef == src.oid)
        else plate.children.flatMap Obj.children).map Obj.getImage) := by
  have hne : (OType.Image = src.otype) = False := by
    simp [hs]
  rw [target_iterator, if_neg (by simp [hs]), if_pos hs,
    get_children_recursive_plate plate hp hw]

/-- Concrete plate for the C5 witness: two runs (ids 1 and 2), one well,
two WellSamples referencing different runs. -/
def wsRun1 : Obj := .node .WellSample 101 1 11 [] []

def wsRun2 : Obj := .node .WellSample 102 2 22 [] []

def wellBoth : Obj := .node .Well 201 0 0 [] [wsRun1, wsRun2]

def plateTwoRuns : Obj := .node .Plate 301 0 0 [1, 2] [wellBoth]

def srcRun1 : Obj := .node .PlateAcquisition 1 0 0 [] []

/-- Witness for `target_iterator_run_filter`: on the two-run plate, walking
from run 1 yields only the image of the WellSample referencing run 1. -/
theorem target_iterator_run_filter_witness :
    target_iterator srcRun1 plateTwoRuns .Image false [] = [Obj.getImage wsRun1] := by
  have h := target_iterator_run_filter srcRun1 plateTwoRuns rfl rfl (by decide)
  rw [h]
  rfl

/-! ## C3: idempotent tag linking -/

/-- Lemma: `link_tags` never touches the MapAnnotations or the id supply. -/
theorem link_tags_maps (d : List Int) (l : List String) :
    ∀ (exist : List Int) (st : AnnObjState) (u : Bool) (st2 : AnnObjState)
      (u2 : Bool), link_tags d l exist st u = .ok (st2, u2) →
      st2.nextId = st.nextId ∧ st2.maps = st.maps := by
  induction l with
  | nil =>
    intro exist st u st2 u2 h
    simp only [link_tags, Except.ok.injEq, Prod.mk.injEq] at h
    rw [← h.1]
    exact ⟨rfl, rfl⟩
  | cons s rest ih =>
    intro exist st u st2 u2 h
    simp only [link_tags] at h
    split at h
    next => cases h
    next tid hi =>
      split at h
      next hex => exact ih exist st u st2 u2 h
      next hex =>
        split at h
        next hd =>
          rcases ih _ _ _ _ _ h with ⟨h1, h2⟩
          exact ⟨h1, h2⟩
        next hd => cases h

/-- Structure of a successful `link_tags` run when `exist_ids` mirrors the
object's linked ids: only new, known tags are appended, each at most once,
and afterwards every requested tag id is linked. -/
theorem link_tags_spec (d : List Int) (l : List String) :
    ∀ (exist : List Int) (st : AnnObjState) (u : Bool) (st2 : AnnObjState)
      (u2 : Bool), exist = st.linked →
      link_tags d l exist st u = .ok (st2, u2) →
      ∃ A, st2.linked = st.linked ++ A ∧ A.Nodup ∧
        (∀ x ∈ A, x ∈ d ∧ x ∉ st.linked) ∧
        (∀ s ∈ l, ∃ tid, pyIntOpt s = some tid ∧ tid ∈ st2.linked) := by
  induction l with
  | nil =>
    intro exist st u st2 u2 hex h
    simp only [link_tags, Except.ok.injEq, Prod.mk.injEq] at h
    refine ⟨[], by simp [← h.1], by simp, by simp, by simp⟩
  | cons s rest ih =>
    intro exist st u st2 u2 hex h
    simp only [link_tags] at h
    split at h
    next => cases h
    next tid hi =>
      by_cases hexc : exist.contains tid
      · rw [if_pos hexc] at h
        rcases ih exist st u st2 u2 hex h with ⟨A, hA, hnd, hmem, hreq⟩
        refine ⟨A, hA, hnd, hmem, ?_⟩
        intro q hq
        rcases List.mem_cons.mp hq with rfl | hq2
        · refine ⟨tid, hi, ?_⟩
          have : tid ∈ st.linked := by
            rw [← hex]; simpa using hexc
          rw [hA]
          exact List.mem_append_left _ this
        · exact hreq q hq2
      · rw [if_neg hexc] at h
        by_cases hd : d.contains tid
        · rw [if_pos hd] at h
          have hex2 : exist ++ [tid] =
              ({ st with linked := st.linked ++ [tid] } : AnnObjState).linked := by
            simp [hex]
          rcases ih (exist ++ [tid]) { st with linked := st.linked ++ [tid] }
            true st2 u2 hex2 h with ⟨A, hA, hnd, hmem, hreq⟩
          simp only at hA
          have htidnx : tid ∉ st.linked := by
            rw [← hex]; simpa using hexc
          refine ⟨tid :: A, ?_, ?_, ?_, ?_⟩
          · rw [hA]; simp
          · refine List.nodup_cons.mpr ⟨?_, hnd⟩
            intro hmemA
            have := (hmem tid hmemA).2
            simp at this
          · intro x hx
            rcases List.mem_cons.mp hx with rfl | hx2
            · exact ⟨by simpa using hd, htidnx⟩
            · rcases hmem x hx2 with ⟨hxd, hxn⟩
              refine ⟨hxd, fun hc => hxn ?_⟩
              simp [hc]
          · intro q hq
            rcases List.mem_cons.mp hq with rfl | hq2
            · refine ⟨tid, hi, ?_⟩
              rw [hA]
              simp
            · exact hreq q hq2
        · rw [if_neg hd] at h
          cases h

/-- When every requested tag id is already in `exist_ids`, `link_tags` is
the identity. -/
theorem link_tags_skip (d : List Int) (l : List String) :
    ∀ (exist : List Int) (st : AnnObjState) (u : Bool),
      (∀ s ∈ l, ∃ tid, pyIntOpt s = some tid ∧ tid ∈ exist) →
      link_tags d l exist st u = .ok (st, u) := by
  induction l with
  | nil => intro exist st u _; rfl
  | cons s rest ih =>
    intro exist st u hreq
    rcases hreq s (by simp) with ⟨tid, hi, hmem⟩
    have hexc : exist.contains tid := by simpa using hmem
    simp only [link_tags, hi, hexc, if_pos]
    exact ih exist st u (fun q hq => hreq q (by simp [hq]))

/-- One namespace-group iteration: the id supply grows, exactly one
MapAnnotation is added when the group's key-value list is non-empty, every
requested tag ends up linked, links only grow, and for known tag ids the
link count never passes 1 and never changes once positive. -/
theorem ann_group_spec (d : List Int) (ee : Bool) (so : String)
    (items : List (String × String × String)) (ns : String)
    (st st2 : AnnObjState) (u2 : Bool)
    (hfresh : ∀ t ∈ d, t < st.nextId)
    (h : ann_group d ee so items ns st = .ok (st2, u2)) :
    st.nextId ≤ st2.nextId ∧
    st2.maps.length = st.maps.length +
      (if 0 < (group_items ee so ns items).1.length then 1 else 0) ∧
    (∀ s ∈ (group_items ee so ns items).2,
      ∃ tid, pyIntOpt s = some tid ∧ tid ∈ st2.linked) ∧
    (∀ t ∈ d,
      (st.linked.count t = 0 → st2.linked.count t ≤ 1) ∧
      (0 < st.linked.count t → st2.linked.count t = st.linked.count t)) ∧
    (∃ A, st2.linked = st.linked ++ A) := by
  simp only [ann_group] at h
  set kv := (group_items ee so ns items).1 with hkvdef
  set tg := (group_items ee so ns items).2 with htgdef
  set stp : AnnObjState := if 0 < kv.length then
      AnnObjState.mk (st.linked ++ [st.nextId]) (st.nextId + 1)
        (st.maps ++ [(st.nextId, ns, kv)])
    else st with hstpdef
  have hstp_linked : stp.linked =
      st.linked ++ (if 0 < kv.length then [st.nextId] else []) := by
    by_cases hkv : 0 < kv.length <;> simp [hstpdef, hkv]
  have hstp_next : st.nextId ≤ stp.nextId := by
    by_cases hkv : 0 < kv.length <;> simp [hstpdef, hkv]
  have hstp_maps : stp.maps.length =
      st.maps.length + (if 0 < kv.length then 1 else 0) := by
    by_cases hkv : 0 < kv.length <;> simp [hstpdef, hkv]
  have hstp_count : ∀ t ∈ d, stp.linked.count t = st.linked.count t := by
    intro t ht
    rw [hstp_linked, List.count_append]
    have hne : (st.nextId == t) = false := by
      have := hfresh t ht
      simp only [beq_eq_false_iff_ne, ne_eq]
      omega
    by_cases hkv : 0 < kv.length <;> simp [hkv, List.count_singleton, hne]
  split at h
  · -- tag ids requested: the linking loop runs on exist_ids = stp.linked
    rcases link_tags_maps d tg stp.linked stp _ st2 u2 h with ⟨hnx, hmp⟩
    rcases link_tags_spec d tg stp.linked stp _ st2 u2 rfl h with
      ⟨A, hA, hnd, hmem, hreq⟩
    refine ⟨by omega, by rw [hmp]; exact hstp_maps, hreq, ?_, ?_⟩
    · intro t ht
      have hcnt : st2.linked.count t = stp.linked.count t + A.count t := by
        rw [hA, List.count_append]
      by_cases hmemA : t ∈ A
      · have hA1 : A.count t ≤ 1 :=
          List.nodup_iff_count_le_one.mp hnd t
        have hA0 : 0 < A.count t := List.count_pos_iff.mpr hmemA
        have hnotst : t ∉ stp.linked := (hmem t hmemA).2
        have hstp0 : stp.linked.count t = 0 := by
          rw [List.count_eq_zero]
          exact hnotst
        have h0 : st.linked.count t = 0 := by
          rw [← hstp_count t ht]
          exact hstp0
        constructor
        · intro _
          omega
        · intro hpos
          omega
      · have hA0 : A.count t = 0 := by
          rw [List.count_eq_zero]
          exact hmemA
        have := hstp_count t ht
        constructor
        · intro h0
          omega
        · intro hpos
          omega
    · exact ⟨(if 0 < kv.length then [st.nextId] else []) ++ A, by
        rw [hA, hstp_linked, List.append_assoc]⟩
  · -- no tag ids: the group returns stp directly
    have hst2 : st2 = stp := by
      simp only [Except.ok.injEq, Prod.mk.injEq] at h
      exact h.1.symm
    have htg0 : tg = [] := by
      rename_i hlen
      simpa using List.length_eq_zero.mp (by omega)
    subst hst2
    refine ⟨hstp_next, hstp_maps, ?_, ?_, ?_⟩
    · intro s hs
      rw [htg0] at hs
      cases hs
    · intro t ht
      have := hstp_count t ht
      constructor
      · intro h0; omega
      · intro hpos; omega
    · exact ⟨(if 0 < kv.length then [st.nextId] else []), hstp_linked⟩

/-- One namespace-group iteration when every requested tag is already
linked: no tag is linked again (counts of known ids unchanged), only the
group's MapAnnotation — if any — is added. -/
theorem ann_group_skip (d : List Int) (ee : Bool) (so : String)
    (items : List (String × String × String)) (ns : String)
    (st st2 : AnnObjState) (u2 : Bool)
    (hfresh : ∀ t ∈ d, t < st.nextId)
    (hreq : ∀ s ∈ (group_items ee so ns items).2,
      ∃ tid, pyIntOpt s = some tid ∧ tid ∈ st.linked)
    (h : ann_group d ee so items ns st = .ok (st2, u2)) :
    (∀ t ∈ d, st2.linked.count t = st.linked.count t) ∧
    st2.maps.length = st.maps.length +
      (if 0 < (group_items ee so ns items).1.length then 1 else 0) ∧
    st.nextId ≤ st2.nextId ∧
    (∃ A, st2.linked = st.linked ++ A) := by
  simp only [ann_group] at h
  set kv := (group_items ee so ns items).1 with hkvdef
  set tg := (group_items ee so ns items).2 with htgdef
  set stp : AnnObjState := if 0 < kv.length then
      AnnObjState.mk (st.linked ++ [st.nextId]) (st.nextId + 1)
        (st.maps ++ [(st.nextId, ns, kv)])
    else st with hstpdef
  have hstp_linked : stp.linked =
      st.linked ++ (if 0 < kv.length then [st.nextId] else []) := by
    by_cases hkv : 0 < kv.length <;> simp [hstpdef, hkv]
  have hstp_next : st.nextId ≤ stp.nextId := by
    by_cases hkv : 0 < kv.length <;> simp [hstpdef, hkv]
  have hstp_maps : stp.maps.length =
      st.maps.length + (if 0 < kv.length then 1 else 0) := by
    by_cases hkv : 0 < kv.length <;> simp [hstpdef, hkv]
  have hstp_count : ∀ t ∈ d, stp.linked.count t = st.linked.count t := by
    intro t ht
    rw [hstp_linked, List.count_append]
    have hne : (st.nextId == t) = false := by
      have := hfresh t ht
      simp only [beq_eq_false_iff_ne, ne_eq]
      omega
    by_cases hkv : 0 < kv.length <;> simp [hkv, List.count_singleton, hne]
  have hst2 : st2 = stp := by
    split at h
    · have hreq2 : ∀ s ∈ tg, ∃ tid, pyIntOpt s = some tid ∧ tid ∈ stp.linked := by
        intro s hs
        rcases hreq s hs with ⟨tid, hi, hm⟩
        refine ⟨tid, hi, ?_⟩
        rw [hstp_linked]
        exact List.mem_append_left _ hm
      rw [link_tags_skip d tg stp.linked stp _ hreq2] at h
      simp only [Except.ok.injEq, Prod.mk.injEq] at h
      exact h.1.symm
    · simp only [Except.ok.injEq, Prod.mk.injEq] at h
      exact h.1.symm
  subst hst2
  exact ⟨hstp_count, hstp_maps, hstp_next,
    ⟨(if 0 < kv.length then [st.nextId] else []), hstp_linked⟩⟩

theorem mapAdds_cons (ee : Bool) (so : String)
    (items : List (String × String × String)) (ns : String) (rest : List String) :
    mapAdds ee so items (ns :: rest) =
      (if 0 < (group_items ee so ns items).1.length then 1 else 0) +
        mapAdds ee so items rest := by
  by_cases hns : 0 < (group_items ee so ns items).1.length <;>
    simp [mapAdds, List.filter_cons, hns] <;> omega

/-- A full pass over the namespace groups: ids only grow, links only grow,
known tag ids are linked at most once overall and never re-linked,
every requested tag of every group is linked afterwards, and exactly
`mapAdds` MapAnnotations are created. -/
theorem ann_groups_spec (d : List Int) (ee : Bool) (so : String)
    (items : List (String × String × String)) (nsl : List String) :
    ∀ (st : AnnObjState) (u : Bool) (st2 : AnnObjState) (u2 : Bool),
      (∀ t ∈ d, t < st.nextId) →
      ann_groups d ee so items nsl st u = .ok (st2, u2) →
      st.nextId ≤ st2.nextId ∧
      (∃ A, st2.linked = st.linked ++ A) ∧
      (∀ t ∈ d,
        (st.linked.count t = 0 → st2.linked.count t ≤ 1) ∧
        (0 < st.linked.count t → st2.linked.count t = st.linked.count t)) ∧
      (∀ ns ∈ nsl, ∀ s ∈ (group_items ee so ns items).2,
        ∃ tid, pyIntOpt s = some tid ∧ tid ∈ st2.linked) ∧
      st2.maps.length = st.maps.length + mapAdds ee so items nsl := by
  induction nsl with
  | nil =>
    intro st u st2 u2 hfresh h
    simp only [ann_groups, Except.ok.injEq, Prod.mk.injEq] at h
    rw [← h.1]
    refine ⟨le_refl _, ⟨[], by simp⟩, ?_, by simp, by simp [mapAdds]⟩
    intro t ht
    exact ⟨fun h0 => by omega, fun _ => rfl⟩
  | cons ns rest ih =>
    intro st u st2 u2 hfresh h
    simp only [ann_groups] at h
    split at h
    · cases h
    · rename_i stp updp heq
      rcases ann_group_spec d ee so items ns st stp updp hfresh heq with
        ⟨hg_next, hg_maps, hg_req, hg_cnt, ⟨A1, hA1⟩⟩
      have hfresh2 : ∀ t ∈ d, t < stp.nextId := by
        intro t ht
        have := hfresh t ht
        omega
      rcases ih stp updp st2 u2 hfresh2 h with
        ⟨hr_next, ⟨A2, hA2⟩, hr_cnt, hr_req, hr_maps⟩
      refine ⟨by omega, ⟨A1 ++ A2, by rw [hA2, hA1, List.append_assoc]⟩, ?_, ?_, ?_⟩
      · intro t ht
        rcases hg_cnt t ht with ⟨hg0, hgp⟩
        rcases hr_cnt t ht with ⟨hr0, hrp⟩
        constructor
        · intro h0
          have hle1 := hg0 h0
          rcases Nat.eq_zero_or_pos (stp.linked.count t) with hz | hpz
          · have := hr0 hz
            omega
          · have := hrp hpz
            omega
        · intro hpos
          have := hgp hpos
          have := hrp (by omega)
          omega
      · intro nsq hns s hs
        rcases List.mem_cons.mp hns with rfl | hns2
        · rcases hg_req s hs with ⟨tid, hi, hm⟩
          refine ⟨tid, hi, ?_⟩
          rw [hA2]
          exact List.mem_append_left _ hm
        · exact hr_req nsq hns2 s hs
      · rw [hr_maps, hg_maps, mapAdds_cons]
        omega

/-- A full pass when every requested tag of every group is already linked:
counts of known ids never change; only MapAnnotations are added. -/
theorem ann_groups_skip (d : List Int) (ee : Bool) (so : String)
    (items : List (String × String × String)) (nsl : List String) :
    ∀ (st : AnnObjState) (u : Bool) (st2 : AnnObjState) (u2 : Bool),
      (∀ t ∈ d, t < st.nextId) →
      (∀ ns ∈ nsl, ∀ s ∈ (group_items ee so ns items).2,
        ∃ tid, pyIntOpt s = some tid ∧ tid ∈ st.linked) →
      ann_groups d ee so items nsl st u = .ok (st2, u2) →
      (∀ t ∈ d, st2.linked.count t = st.linked.count t) ∧
      st2.maps.length = st.maps.length + mapAdds ee so items nsl := by
  induction nsl with
  | nil =>
    intro st u st2 u2 hfresh hreq h
    simp only [ann_groups, Except.ok.injEq, Prod.mk.injEq] at h
    rw [← h.1]
    exact ⟨fun t ht => rfl, by simp [mapAdds]⟩
  | cons ns rest ih =>
    intro st u st2 u2 hfresh hreq h
    simp only [ann_groups] at h
    split at h
    · cases h
    · rename_i stp updp heq
      rcases ann_group_skip d ee so items ns st stp updp hfresh
        (hreq ns (by simp)) heq with ⟨hg_cnt, hg_maps, hg_next, ⟨A1, hA1⟩⟩
      have hfresh2 : ∀ t ∈ d, t < stp.nextId := by
        intro t ht
        have := hfresh t ht
        omega
      have hreq2 : ∀ nsq ∈ rest, ∀ s ∈ (group_items ee so nsq items).2,
          ∃ tid, pyIntOpt s = some tid ∧ tid ∈ stp.linked := by
        intro nsq hns s hs
        rcases hreq nsq (by simp [hns]) s hs with ⟨tid, hi, hm⟩
        refine ⟨tid, hi, ?_⟩
        rw [hA1]
        exact List.mem_append_left _ hm
      rcases ih stp updp st2 u2 hfresh2 hreq2 h with ⟨hr_cnt, hr_maps⟩
      refine ⟨?_, ?_⟩
      · intro t ht
        rw [hr_cnt t ht, hg_cnt t ht]
      · rw [hr_maps, hg_maps, mapAdds_cons]
        omega

/-- Claim C3: calling `annotate_object` twice with the same arguments on
the same object links every known tag at most once overall (the linked
count of a tag id grows by at most one across both calls), the second
call links no tag at all (the counts of all known tag ids are unchanged by
it — it reports no update for the tag portion), while MapAnnotations are
created unconditionally: each of the two calls adds exactly one per
namespace group with a non-empty key-value list. -/
theorem annotate_object_tag_idempotent (tagid_d_ids : List Int)
    (row header namespaces : List String) (ee : Bool) (so : String)
    (st0 st1 st2 : AnnObjState) (u1 u2 : Bool)
    (hfresh : ∀ t ∈ tagid_d_ids, t < st0.nextId)
    (h1 : annotate_object tagid_d_ids row header namespaces ee so st0 =
      .ok (st1, u1))
    (h2 : annotate_object tagid_d_ids row header namespaces ee so st1 =
      .ok (st2, u2)) :
    (∀ t ∈ tagid_d_ids, st2.linked.count t ≤ st0.linked.count t + 1) ∧
    (∀ t ∈ tagid_d_ids, st2.linked.count t = st1.linked.count t) ∧
    st1.maps.length = st0.maps.length +
      mapAdds ee so (namespaces.zip (header.zip row)) (dedupFirst [] namespaces) ∧
    st2.maps.length = st1.maps.length +
      mapAdds ee so (namespaces.zip (header.zip row)) (dedupFirst [] namespaces) := by
  rw [annotate_object] at h1 h2
  rcases ann_groups_spec tagid_d_ids ee so (namespaces.zip (header.zip row))
    (dedupFirst [] namespaces) st0 false st1 u1 hfresh h1 with
    ⟨hn1, ⟨A1, hA1⟩, hcnt1, hreq1, hmaps1⟩
  have hfresh1 : ∀ t ∈ tagid_d_ids, t < st1.nextId := by
    intro t ht
    have := hfresh t ht
    omega
  rcases ann_groups_skip tagid_d_ids ee so (namespaces.zip (header.zip row))
    (dedupFirst [] namespaces) st1 false st2 u2 hfresh1 hreq1 h2 with
    ⟨hcnt2, hmaps2⟩
  refine ⟨?_, hcnt2, hmaps1, hmaps2⟩
  intro t ht
  rcases hcnt1 t ht with ⟨hc0, hcp⟩
  rw [hcnt2 t ht]
  rcases Nat.eq_zero_or_pos (st0.linked.count t) with hz | hpz
  · have := hc0 hz
    omega
  · have := hcp hpz
    omega

/-- Witness for `annotate_object_tag_idempotent`: one tag column requesting
tag 7; the first call links it, the second call does not. -/
theorem annotate_object_tag_idempotent_witness :
    ((AnnObjState.mk [7] 100 []).linked.count 7 ≤
      (AnnObjState.mk [] 100 []).linked.count 7 + 1) ∧
    ((AnnObjState.mk [7] 100 []).linked.count 7 =
      (AnnObjState.mk [7] 100 []).linked.count 7) ∧
    (7 : Int) < 100 ∧
    annotate_object [7] ["7"] ["tag"] ["nsa"] false "" ⟨[], 100, []⟩ =
      .ok (⟨[7], 100, []⟩, true) ∧
    annotate_object [7] ["7"] ["tag"] ["nsa"] false "" ⟨[7], 100, []⟩ =
      .ok (⟨[7], 100, []⟩, false) := by
  have h := annotate_object_tag_idempotent [7] ["7"] ["tag"] ["nsa"] false ""
    ⟨[], 100, []⟩ ⟨[7], 100, []⟩ ⟨[7], 100, []⟩ true false
    (by decide) (by decide) (by decide)
  exact ⟨h.1 7 (by decide), h.2.1 7 (by decide), by decide, by decide, by decide⟩
